import Mathlib

/-!
# matmul-compile: the configuration-driven codegen strategy pipeline

A shallow embedding of `src/matmul/matmul-compile/matmul-compile.cpp`.

* The recipe types (`Nod::CompileOptionsT` and friends) are the object API of the
  generated header `compile_options_generated.h`; their fields are read off the
  accesses made in the source.
* `CodegenStrategy` is the builder object of the transformation library: the
  source only appends steps to it and sets two option fields, which is what the
  embedding records.
* Everything the source merely calls (the rewrite engine behind
  `strategy.transform`, the recipe decoder, the file system, the lowering passes,
  the translator) is a parameter of the embedding.
-/

namespace MatmulCompile

/-! ## Recipe model (`Nod::…T` object API) -/

/-- Operator kind of a recipe entry, `Nod::LinalgOperator`. -/
inductive LinalgOperator where
  | matmul
  | fill
  | copy
  | unknown
  deriving DecidableEq, Repr

/-- Recipe enum `Nod::LinalgTilingLoopType`. -/
inductive NodLinalgTilingLoopType where
  | loops
  | affine_loops
  | parallel_loops
  deriving DecidableEq, Repr

/-- Recipe enum `Nod::VectorContractLowering`. -/
inductive NodVectorContractLowering where
  | dot
  | matmul
  | outer_product
  deriving DecidableEq, Repr

/-- Recipe enum `Nod::VectorTransferSplit`. -/
inductive NodVectorTransferSplit where
  | none
  | linalg_copy
  | vector_transfer
  deriving DecidableEq, Repr

/-- Recipe table `Nod::TileOptionsT`. -/
structure TileOptionsT where
  tile_sizes : List Int
  interchange_vector : List Nat
  promote_operands : List Int
  promote_full_tile : Bool
  loop_type : NodLinalgTilingLoopType
  deriving DecidableEq, Repr

/-- Recipe table `Nod::VectorizeOptionsT`. -/
structure VectorizeOptionsT where
  vectorize_to : NodVectorContractLowering
  vector_transfer_split : NodVectorTransferSplit
  unroll_vector_transfers : Bool
  deriving DecidableEq, Repr

/-- Recipe entry `Nod::OptionsT`; a null table pointer is `none`. -/
structure OptionsT where
  op : LinalgOperator
  tile_options : Option TileOptionsT
  vectorize_options : Option VectorizeOptionsT
  deriving DecidableEq, Repr

/-- Recipe root `Nod::CompileOptionsT`; default constructed it holds no entry. -/
structure CompileOptionsT where
  options : List OptionsT := []
  deriving DecidableEq, Repr

/-! ## Strategy model (`mlir::linalg::CodegenStrategy`) -/

/-- The operation type a step is instantiated for: the template argument
`LinalgOp` of `performCompileOptions`. -/
inductive LinalgOpType where
  | MatmulOp
  | FillOp
  | CopyOp
  deriving DecidableEq, Repr

/-- Library enum `linalg::LinalgTilingLoopType`. -/
inductive LinalgTilingLoopType where
  | Loops
  | AffineLoops
  | ParallelLoops
  deriving DecidableEq, Repr

/-- Library enum `vector::VectorContractLowering`. -/
inductive VectorContractLowering where
  | Dot
  | Matmul
  | OuterProduct
  deriving DecidableEq, Repr

/-- Library enum `vector::VectorTransferSplit`. -/
inductive VectorTransferSplit where
  | None
  | LinalgCopy
  | VectorTransfer
  deriving DecidableEq, Repr

/-- What the chain `LinalgTilingOptions().setTileSizes(..).setInterchange(..).setLoopType(..)`
carries. -/
structure LinalgTilingOptions where
  tileSizes : List Int
  interchangeVector : List Nat
  loopType : LinalgTilingLoopType
  deriving DecidableEq, Repr

/-- What the chain `LinalgPromotionOptions().setOperandsToPromote(..)
.setUseFullTileBuffersByDefault(..).setAlignment(..)` carries. -/
structure LinalgPromotionOptions where
  operandsToPromote : List Int
  useFullTileBuffersDefault : Bool
  alignment : Nat
  deriving DecidableEq, Repr

/-- Value of `vector::VectorTransformsOptions`; a default constructed one is
`Dot` / `None`. -/
structure VectorTransformsOptions where
  vectorContractLowering : VectorContractLowering := VectorContractLowering.Dot
  vectorTransferSplit : VectorTransferSplit := VectorTransferSplit.None
  deriving DecidableEq, Repr

/-- Value of `VectorTransferToSCFOptions`; unrolling is off by default. -/
structure VectorTransferToSCFOptions where
  unroll : Bool := false
  deriving DecidableEq, Repr

/-- One registered step of a strategy, with the operation type it is
instantiated for. -/
inductive Transformation where
  | Tile (target : LinalgOpType) (options : LinalgTilingOptions)
  | Promote (target : LinalgOpType) (options : LinalgPromotionOptions)
  | Vectorize (target : LinalgOpType)
  deriving DecidableEq, Repr

/-- The three kinds of step. -/
inductive StepKind where
  | tiling
  | promotion
  | vectorization
  deriving DecidableEq, Repr

/-- Kind of a registered step. -/
def Transformation.kind : Transformation → StepKind
  | .Tile _ _ => StepKind.tiling
  | .Promote _ _ => StepKind.promotion
  | .Vectorize _ => StepKind.vectorization

/-- Operation type a registered step is restricted to. -/
def Transformation.target : Transformation → LinalgOpType
  | .Tile t _ => t
  | .Promote t _ => t
  | .Vectorize t => t

/-- The builder object: the registered steps in registration order, and the
two strategy-wide vector option fields. -/
structure CodegenStrategy where
  transformationSequence : List Transformation := []
  vectorTransformsOptions : VectorTransformsOptions := {}
  vectorToSCFOptions : VectorTransferToSCFOptions := {}
  deriving DecidableEq, Repr

namespace CodegenStrategy

/-- Library call `tileIf<LinalgOp>(b, options)`: registers a tiling step when `b`. -/
def tileIf (s : CodegenStrategy) (T : LinalgOpType) (b : Bool)
    (options : LinalgTilingOptions) : CodegenStrategy :=
  if b then { s with transformationSequence := s.transformationSequence ++ [Transformation.Tile T options] }
  else s

/-- Library call `promoteIf<LinalgOp>(b, options)`: registers a promotion step when `b`. -/
def promoteIf (s : CodegenStrategy) (T : LinalgOpType) (b : Bool)
    (options : LinalgPromotionOptions) : CodegenStrategy :=
  if b then { s with transformationSequence := s.transformationSequence ++ [Transformation.Promote T options] }
  else s

/-- Library call `vectorizeIf<LinalgOp>(b)`: registers a vectorization step when `b`. -/
def vectorizeIf (s : CodegenStrategy) (T : LinalgOpType) (b : Bool) : CodegenStrategy :=
  if b then { s with transformationSequence := s.transformationSequence ++ [Transformation.Vectorize T] }
  else s

/-- Library call `setVectorTransformsOptions(options)`. -/
def setVectorTransformsOptions (s : CodegenStrategy) (options : VectorTransformsOptions) :
    CodegenStrategy :=
  { s with vectorTransformsOptions := options }

/-- Library call `setVectorTransferToSCFOptions(options)`. -/
def setVectorTransferToSCFOptions (s : CodegenStrategy) (options : VectorTransferToSCFOptions) :
    CodegenStrategy :=
  { s with vectorToSCFOptions := options }

end CodegenStrategy

/-! ## `performCompileOptions`, lines 97-181 -/

/-- The `switch` on `tile_options->loop_type` (lines 104-115). -/
def loopTypeOf : NodLinalgTilingLoopType → LinalgTilingLoopType
  | .loops => LinalgTilingLoopType.Loops
  | .affine_loops => LinalgTilingLoopType.AffineLoops
  | .parallel_loops => LinalgTilingLoopType.ParallelLoops

/-- The `switch` on `vectorize_to` (lines 144-155). -/
def contractLoweringOf : NodVectorContractLowering → VectorContractLowering
  | .dot => VectorContractLowering.Dot
  | .matmul => VectorContractLowering.Matmul
  | .outer_product => VectorContractLowering.OuterProduct

/-- The `switch` on `vector_transfer_split` (lines 157-168). -/
def transferSplitOf : NodVectorTransferSplit → VectorTransferSplit
  | .none => VectorTransferSplit.None
  | .linalg_copy => VectorTransferSplit.LinalgCopy
  | .vector_transfer => VectorTransferSplit.VectorTransfer

/-- The element-by-element `push_back` loops of lines 121-129: the local
vector ends up holding the source vector's elements in order. -/
def copyVector {α : Type} : List α → List α
  | [] => []
  | x :: xs => x :: copyVector xs

/-- Tile codegen block, lines 101-139. `pagesize` is the value of `getpagesize()`. -/
def tileCodegen (T : LinalgOpType) (pagesize : Nat) (options : OptionsT)
    (strategy : CodegenStrategy) : CodegenStrategy :=
  match options.tile_options with
  | none => strategy
  | some tileOptions =>
    let loop_type := loopTypeOf tileOptions.loop_type
    let tileSizes := copyVector tileOptions.tile_sizes
    let interchangeVector := copyVector tileOptions.interchange_vector
    let promoteOperands := copyVector tileOptions.promote_operands
    let strategy := strategy.tileIf T (!tileSizes.isEmpty)
      { tileSizes := tileSizes, interchangeVector := interchangeVector, loopType := loop_type }
    strategy.promoteIf T (!promoteOperands.isEmpty)
      { operandsToPromote := tileOptions.promote_operands,
        useFullTileBuffersDefault := tileOptions.promote_full_tile,
        alignment := pagesize }

/-- Vectorize codegen block, lines 141-178. -/
def vectorizeCodegen (T : LinalgOpType) (options : OptionsT)
    (strategy : CodegenStrategy) : CodegenStrategy :=
  match options.vectorize_options with
  | none => strategy
  | some vectorizeOptions =>
    let vectorContractLowering := contractLoweringOf vectorizeOptions.vectorize_to
    let vectorTransferSplit := transferSplitOf vectorizeOptions.vector_transfer_split
    ((strategy.vectorizeIf T options.vectorize_options.isSome).setVectorTransformsOptions
        { vectorContractLowering := vectorContractLowering,
          vectorTransferSplit := vectorTransferSplit }).setVectorTransferToSCFOptions
      { unroll := vectorizeOptions.unroll_vector_transfers }

/-- The strategy `performCompileOptions<LinalgOp>` has built when it reaches
`strategy.transform(func)` (lines 99-178). -/
def buildStrategy (T : LinalgOpType) (pagesize : Nat) (options : OptionsT) : CodegenStrategy :=
  vectorizeCodegen T options (tileCodegen T pagesize options {})

/-- A strategy has a step of the given kind. -/
def CodegenStrategy.hasStep (s : CodegenStrategy) (k : StepKind) : Prop :=
  k ∈ s.transformationSequence.map Transformation.kind

instance (s : CodegenStrategy) (k : StepKind) : Decidable (s.hasStep k) := by
  unfold CodegenStrategy.hasStep; infer_instance

/-- A recipe entry with neither tile options nor vectorize options. -/
def bareEntry (op : LinalgOperator) : OptionsT :=
  { op := op, tile_options := none, vectorize_options := none }

/-! ## `LinalgCodegenPass::runOnFunction`, lines 183-232 -/

/-- An operation of the function body: which of the three operation types it is
an instance of (`none` for any other operation) and an identifier standing for
the rest of it (operands, attributes, regions). -/
structure Operation where
  opType : Option LinalgOpType
  ident : Nat
  deriving DecidableEq, Repr

/-- The function the pass runs on: its `passthrough` attribute (an array of
string arrays, absent until set) and its operations. -/
structure FuncOp where
  passthrough : Option (List (List String))
  body : List Operation
  deriving DecidableEq, Repr

/-- Member `LinalgCodegenPass::Parameters`. -/
structure Parameters where
  vectorWidth : String
  targetCPU : String
  compileOptions : String
  deriving DecidableEq, Repr

/-- What the pass only calls: the file system (`none` when the file cannot be
opened, else its bytes), the recipe decoder `GetCompileOptions(..)->UnPackTo`,
the rewrite engine behind `strategy.transform(func)`, and `getpagesize()`. -/
structure PassEnv where
  fs : String → Option (List Nat)
  unpack : List Nat → CompileOptionsT
  transform : CodegenStrategy → FuncOp → FuncOp
  pagesize : Nat

/-- State threaded through the pass: the function, the pass member `config`,
the lines written to standard output, and the strategies on which
`strategy.transform(func)` has been called so far, oldest first. -/
structure PassState where
  func : FuncOp
  config : CompileOptionsT
  stdout : List String
  applied : List CodegenStrategy
  deriving DecidableEq, Repr

/-- How the pass ends: it returns to the pass manager, or `exit(status)` ends
the process. -/
inductive Outcome where
  | returned
  | exited (status : Nat)
  deriving DecidableEq, Repr

/-- Conversion of a stream offset to `int` (32 bits, two's complement). -/
def toInt32 (n : Int) : Int :=
  let m := n % 2 ^ 32
  if m < 2 ^ 31 then m else m - 2 ^ 32

/-- The whole of `performCompileOptions<LinalgOp>(options, func)`: build the
strategy, then `strategy.transform(func)`. -/
def performCompileOptions (env : PassEnv) (T : LinalgOpType) (options : OptionsT)
    (s : PassState) : PassState :=
  let strategy := buildStrategy T env.pagesize options
  { s with func := env.transform strategy s.func, applied := s.applied ++ [strategy] }

/-- The dispatch loop "Dynamic Codegen", lines 212-231, over the entries that
remain to be visited. -/
def dynamicCodegen (env : PassEnv) : List OptionsT → PassState → Outcome × PassState
  | [], s => (Outcome.returned, s)
  | option :: rest, s =>
    match option.op with
    | .matmul => dynamicCodegen env rest (performCompileOptions env LinalgOpType.MatmulOp option s)
    | .fill => dynamicCodegen env rest (performCompileOptions env LinalgOpType.FillOp option s)
    | .copy => dynamicCodegen env rest (performCompileOptions env LinalgOpType.CopyOp option s)
    | .unknown =>
      (Outcome.exited 1,
        { s with stdout := s.stdout ++ ["Must define operator in compile options"] })

/-- The pass body, lines 183-232. -/
def runOnFunction (env : PassEnv) (params : Parameters) (s : PassState) :
    Outcome × PassState :=
  let attrs := [["prefer-vector-width", params.vectorWidth], ["target-cpu", params.targetCPU]]
  let s := { s with func := { s.func with passthrough := some attrs } }
  let file := env.fs params.compileOptions
  let tellg : Int := match file with
    | none => -1
    | some bytes => bytes.length
  let length := toInt32 tellg
  if length < 0 then
    (Outcome.exited 1, { s with stdout := s.stdout ++ ["File not found!", params.compileOptions] })
  else
    let data := (file.getD []).take length.toNat
    let s := { s with config := env.unpack data }
    dynamicCodegen env s.config.options s

/-- The operation type the dispatch `switch` instantiates `performCompileOptions`
with, `none` for the `unknown` case, which instantiates nothing. -/
def dispatchType : LinalgOperator → Option LinalgOpType
  | .matmul => some LinalgOpType.MatmulOp
  | .fill => some LinalgOpType.FillOp
  | .copy => some LinalgOpType.CopyOp
  | .unknown => none

/-- The strategy the dispatch loop builds for one entry, when it builds one. -/
def strategyOf (pagesize : Nat) (option : OptionsT) : Option CodegenStrategy :=
  (dispatchType option.op).map (fun T => buildStrategy T pagesize option)

/-- The strategies of a list of entries, in order (entries of kind `unknown`
contribute none). -/
def strategiesOf (pagesize : Nat) (options : List OptionsT) : List CodegenStrategy :=
  options.filterMap (strategyOf pagesize)

/-- Applying strategies one after the other, each on the result of the previous one. -/
def applyAll (env : PassEnv) (strategies : List CodegenStrategy) (func : FuncOp) : FuncOp :=
  strategies.foldl (fun f st => env.transform st f) func

/-- A recipe entry list has no entry of kind `unknown`. -/
def noUnknown (options : List OptionsT) : Prop :=
  ∀ o ∈ options, o.op ≠ LinalgOperator.unknown

instance (options : List OptionsT) : Decidable (noUnknown options) := by
  unfold noUnknown; infer_instance

/-- Modelled from the spec: the externally supplied transformation engine
(`CodegenStrategy::transform` belongs to the transformation library, not to
this repository). A step instantiated for an operation type rewrites the
operations of that type, each into a list of operations given by `rewrite`,
and passes every other operation through. -/
def applyStep (rewrite : CodegenStrategy → Transformation → Operation → List Operation)
    (st : CodegenStrategy) (t : Transformation) (body : List Operation) : List Operation :=
  body.flatMap (fun o => if o.opType = some t.target then rewrite st t o else [o])

/-- Modelled from the spec: the externally supplied transformation engine
applies the steps of a strategy in registration order to the function body. -/
def filteredTransform (rewrite : CodegenStrategy → Transformation → Operation → List Operation)
    (st : CodegenStrategy) (f : FuncOp) : FuncOp :=
  { f with body := st.transformationSequence.foldl (fun b t => applyStep rewrite st t b) f.body }

/-- An environment whose engine is the step-filtered one. -/
def filteredEnv (rewrite : CodegenStrategy → Transformation → Operation → List Operation)
    (pagesize : Nat) : PassEnv :=
  { fs := fun _ => none, unpack := fun _ => {}, transform := filteredTransform rewrite,
    pagesize := pagesize }

/-- The kind of an operation has an entry in the recipe. -/
def hasEntry (options : List OptionsT) (o : Operation) : Prop :=
  ∃ e ∈ options, o.opType ≠ none ∧ dispatchType e.op = o.opType

instance (options : List OptionsT) (o : Operation) : Decidable (hasEntry options o) := by
  unfold hasEntry; infer_instance

/-! ## `compile` and `main`, lines 246-320 -/

/-- Command line options, `struct Options`. -/
structure Options where
  inputFile : String
  targetCPU : String
  vectorWidth : String
  compileOptions : String
  deriving DecidableEq, Repr

/-- The ten lowering stages, named after the pass constructors of lines 257-268. -/
inductive Stage where
  | Canonicalizer
  | LinalgCodegen
  | LinalgComprehensiveModuleBufferize
  | ConvertVectorToSCF
  | LowerAffine
  | ConvertLinalgToLoops
  | LowerToCFG
  | ConvertVectorToLLVM
  | MemRefToLLVM
  | LowerToLLVM
  deriving DecidableEq, Repr

/-- A pass object handed to `pm.addPass`; the codegen pass carries the
parameters its constructor copies out of the options (lines 78-82). -/
inductive Pass where
  | plain (stage : Stage)
  | linalgCodegen (params : Parameters)
  deriving DecidableEq, Repr

/-- Stage a pass object implements. -/
def Pass.stage : Pass → Stage
  | .plain st => st
  | .linalgCodegen _ => Stage.LinalgCodegen

/-- Constructor `createLinalgCodegenPass(options)`, lines 78-82 and 234-236. -/
def createLinalgCodegenPass (options : Options) : Pass :=
  Pass.linalgCodegen
    { targetCPU := options.targetCPU, vectorWidth := options.vectorWidth,
      compileOptions := options.compileOptions }

/-- The passes added to the pass manager, in `addPass` order (lines 257-268).
The call `applyPassManagerCLOptions(pm)` of line 256 configures instrumentation
and adds no pass. -/
def passPipeline (options : Options) : List Pass :=
  [ Pass.plain Stage.Canonicalizer,
    createLinalgCodegenPass options,
    Pass.plain Stage.LinalgComprehensiveModuleBufferize,
    Pass.plain Stage.ConvertVectorToSCF,
    Pass.plain Stage.LowerAffine,
    Pass.plain Stage.ConvertLinalgToLoops,
    Pass.plain Stage.LowerToCFG,
    Pass.plain Stage.ConvertVectorToLLVM,
    Pass.plain Stage.MemRefToLLVM,
    Pass.plain Stage.LowerToLLVM ]

/-- The ten stages in pipeline order. -/
def stageOrder : List Stage :=
  [ Stage.Canonicalizer, Stage.LinalgCodegen, Stage.LinalgComprehensiveModuleBufferize,
    Stage.ConvertVectorToSCF, Stage.LowerAffine, Stage.ConvertLinalgToLoops, Stage.LowerToCFG,
    Stage.ConvertVectorToLLVM, Stage.MemRefToLLVM, Stage.LowerToLLVM ]

/-- How one pass ends on a module: it succeeds with the rewritten module, it
signals failure, or it ends the process (as the codegen pass does with `exit(1)`). -/
inductive PassResult (M : Type) where
  | success (m : M)
  | failure
  | exit (status : Nat)

/-- What `compile` only calls: the parser, each pass, the translator with the
printer (`none` when no module comes back, else its text), and whether
`std::ofstream output(name)` manages to open the named file for writing. -/
structure CompileEnv (M : Type) where
  parseSourceFile : String → Option M
  runPass : Pass → M → PassResult M
  translateModuleToLLVMIR : M → Option String
  openOutput : String → Bool

/-- Modelled from the spec: the pass manager's `run` (it belongs to the compiler
infrastructure, not to this repository) runs the added passes one after the
other, each on the result of the previous one, and stops at the first one that
does not succeed. The second component lists the stages that were started. -/
def pmRun {M : Type} (env : CompileEnv M) : List Pass → M → PassResult M × List Stage
  | [], m => (PassResult.success m, [])
  | p :: ps, m =>
    match env.runPass p m with
    | .success m1 =>
      let r := pmRun env ps m1
      (r.1, p.stage :: r.2)
    | .failure => (PassResult.failure, [p.stage])
    | .exit status => (PassResult.exit status, [p.stage])

/-- How `compile` ends: `Error::success()`, a string error, or the process was
ended inside a pass. -/
inductive CompileResult where
  | success
  | error (message : String)
  | exited (status : Nat)
  deriving DecidableEq, Repr

/-- Observable record of one call of `compile`: its result, the stages that
were started, and the files it wrote (name and content). -/
structure CompileRun where
  result : CompileResult
  executed : List Stage
  written : List (String × String)
  deriving DecidableEq, Repr

/-- Index of the last occurrence of a character, `std::string::rfind`. -/
def rfind (c : Char) : List Char → Option Nat
  | [] => none
  | x :: xs =>
    match rfind c xs with
    | some i => some (i + 1)
    | none => if x = c then some 0 else none

/-- Library function `std::filesystem::path::filename` (POSIX): the characters
after the last directory separator. -/
def filename (p : List Char) : List Char :=
  (p.reverse.takeWhile (fun c => c != '/')).reverse

/-- Library function `std::filesystem::path::stem`: the file name itself when it
is `.` or `..` or has no period other than a leading one, else the file name up
to its last period. -/
def stem (p : List Char) : List Char :=
  let f := filename p
  if f = ['.'] ∨ f = ['.', '.'] then f
  else
    match rfind '.' f with
    | none => f
    | some 0 => f
    | some (i + 1) => f.take (i + 1)

/-- Output file name of lines 286-287. -/
def outputName (options : Options) : String :=
  String.mk (stem options.inputFile.data) ++ ".ll"

/-- The function `compile`, lines 246-293. The stream of line 288 is never
checked: when it does not open, nothing is written and `compile` still returns
`Error::success()`. -/
def compile {M : Type} (env : CompileEnv M) (options : Options) : CompileRun :=
  match env.parseSourceFile options.inputFile with
  | none =>
    { result := CompileResult.error ("could not open " ++ options.inputFile),
      executed := [], written := [] }
  | some module =>
    match pmRun env (passPipeline options) module with
    | (.exit status, executed) =>
      { result := CompileResult.exited status, executed := executed, written := [] }
    | (.failure, executed) =>
      { result := CompileResult.error "error compiling to llvm backend",
        executed := executed, written := [] }
    | (.success lowered, executed) =>
      match env.translateModuleToLLVMIR lowered with
      | none =>
        { result := CompileResult.error "error translating to llvm ir",
          executed := executed, written := [] }
      | some moduleStr =>
        let name := outputName options
        { result := CompileResult.success, executed := executed,
          written := if env.openOutput name then [(name, moduleStr)] else [] }

/-- Exit status of `main`, lines 311-319: `EXIT_SUCCESS` unless `compile`
returned an error, which makes it `EXIT_FAILURE`; a process ended inside a pass
keeps the status given to `exit`. -/
def exitCode (r : CompileResult) : Nat :=
  match r with
  | .success => 0
  | .error _ => 1
  | .exited status => status

/-- The module left when every pass of the list has succeeded in turn, `none`
when one of them has not. -/
def passesSucceed {M : Type} (env : CompileEnv M) : List Pass → M → Option M
  | [], m => some m
  | p :: ps, m =>
    match env.runPass p m with
    | .success m1 => passesSucceed env ps m1
    | .failure => none
    | .exit _ => none

/-! ## Concrete instances used to evaluate the embedding -/

/-- A rewrite that marks the operation it is applied to by bumping its identifier. -/
def markRewrite : CodegenStrategy → Transformation → Operation → List Operation :=
  fun _ _ o => [{ o with ident := o.ident + 1 }]

/-- An environment with one three-byte recipe file `recipe.bin`, decoded to the
given entries, the step-filtered engine with `markRewrite`, and 4096-byte pages. -/
def sampleEnv (recipe : List OptionsT) : PassEnv :=
  { fs := fun path => if path = "recipe.bin" then some [1, 2, 3] else none,
    unpack := fun _ => { options := recipe },
    transform := filteredTransform markRewrite,
    pagesize := 4096 }

/-- Pass parameters naming `recipe.bin`. -/
def sampleParams : Parameters :=
  { vectorWidth := "512", targetCPU := "skylake-avx512", compileOptions := "recipe.bin" }

/-- Pass parameters naming a recipe file that does not exist. -/
def missingParams : Parameters :=
  { vectorWidth := "512", targetCPU := "skylake-avx512", compileOptions := "no/such/file.bin" }

/-- A function holding one matmul and one copy, before the pass has run. -/
def sampleState : PassState :=
  { func :=
      { passthrough := none,
        body := [{ opType := some LinalgOpType.MatmulOp, ident := 0 },
                 { opType := some LinalgOpType.CopyOp, ident := 10 }] },
    config := {}, stdout := [], applied := [] }

/-- A matmul entry tiled by 4, 4, 4. -/
def tiledMatmul : OptionsT :=
  { op := LinalgOperator.matmul,
    tile_options := some
      { tile_sizes := [4, 4, 4], interchange_vector := [], promote_operands := [],
        promote_full_tile := false, loop_type := NodLinalgTilingLoopType.loops },
    vectorize_options := none }

/-- A matmul entry that only vectorizes. -/
def vectorizedMatmul : OptionsT :=
  { op := LinalgOperator.matmul, tile_options := none,
    vectorize_options := some
      { vectorize_to := NodVectorContractLowering.matmul,
        vector_transfer_split := NodVectorTransferSplit.vector_transfer,
        unroll_vector_transfers := true } }

/-- An entry of kind `unknown`. -/
def unknownEntry : OptionsT :=
  { op := LinalgOperator.unknown, tile_options := none, vectorize_options := none }

/-- Command line options naming the input `dir/matmul.mlir`. -/
def sampleOptions : Options :=
  { inputFile := "dir/matmul.mlir", targetCPU := "skylake-avx512", vectorWidth := "512",
    compileOptions := "recipe.bin" }

/-- An environment over numbered modules: parsing gives module 0, every pass
succeeds and bumps the number except the given stage, which fails, and the
translator prints `ir`. -/
def failingEnv (bad : Stage) : CompileEnv Nat :=
  { parseSourceFile := fun _ => some 0,
    runPass := fun p m => if p.stage = bad then PassResult.failure else PassResult.success (m + 1),
    translateModuleToLLVMIR := fun _ => some "ir",
    openOutput := fun _ => true }

/-- An environment over numbered modules in which everything succeeds. -/
def succeedingEnv : CompileEnv Nat :=
  { parseSourceFile := fun _ => some 0,
    runPass := fun _ m => PassResult.success (m + 1),
    translateModuleToLLVMIR := fun _ => some "ir",
    openOutput := fun _ => true }

/-- An environment in which everything succeeds except opening the output file. -/
def readOnlyEnv : CompileEnv Nat :=
  { parseSourceFile := fun _ => some 0,
    runPass := fun _ m => PassResult.success (m + 1),
    translateModuleToLLVMIR := fun _ => some "ir",
    openOutput := fun _ => false }

/-! ## Theorems: the strategy builder -/

theorem copyVector_eq {α : Type} (l : List α) : copyVector l = l := by
  induction l with
  | nil => rfl
  | cons x xs ih => simp [copyVector, ih]

/-- The steps `buildStrategy` registers, spelled out case by case. -/
theorem buildStrategy_sequence (T : LinalgOpType) (pagesize : Nat) (o : OptionsT) :
    (buildStrategy T pagesize o).transformationSequence =
      (match o.tile_options with
        | none => []
        | some t =>
          (if t.tile_sizes = [] then [] else
            [Transformation.Tile T
              { tileSizes := t.tile_sizes, interchangeVector := t.interchange_vector,
                loopType := loopTypeOf t.loop_type }]) ++
          (if t.promote_operands = [] then [] else
            [Transformation.Promote T
              { operandsToPromote := t.promote_operands,
                useFullTileBuffersDefault := t.promote_full_tile,
                alignment := pagesize }])) ++
      (match o.vectorize_options with
        | none => []
        | some _ => [Transformation.Vectorize T]) := by
  rcases o with ⟨op, tile, vec⟩
  cases tile with
  | none =>
    cases vec <;>
      simp [buildStrategy, tileCodegen, vectorizeCodegen, CodegenStrategy.vectorizeIf,
        CodegenStrategy.setVectorTransformsOptions, CodegenStrategy.setVectorTransferToSCFOptions]
  | some t =>
    rcases t with ⟨ts, iv, po, pft, lt⟩
    cases vec <;> cases ts <;> cases po <;>
      simp [buildStrategy, tileCodegen, vectorizeCodegen, CodegenStrategy.vectorizeIf,
        CodegenStrategy.tileIf, CodegenStrategy.promoteIf, copyVector_eq,
        CodegenStrategy.setVectorTransformsOptions, CodegenStrategy.setVectorTransferToSCFOptions]

/-- Two strategies are equal exactly when their three fields are. -/
theorem strategy_eq_iff (a b : CodegenStrategy) :
    a = b ↔ a.transformationSequence = b.transformationSequence ∧
      a.vectorTransformsOptions = b.vectorTransformsOptions ∧
      a.vectorToSCFOptions = b.vectorToSCFOptions := by
  cases a; cases b; simp

/-- The two strategy-wide option fields `buildStrategy` leaves behind. -/
theorem buildStrategy_vector_fields (T : LinalgOpType) (pagesize : Nat) (o : OptionsT) :
    (buildStrategy T pagesize o).vectorTransformsOptions =
        (match o.vectorize_options with
          | none => {}
          | some v =>
            { vectorContractLowering := contractLoweringOf v.vectorize_to,
              vectorTransferSplit := transferSplitOf v.vector_transfer_split }) ∧
      (buildStrategy T pagesize o).vectorToSCFOptions =
        (match o.vectorize_options with
          | none => {}
          | some v => { unroll := v.unroll_vector_transfers }) := by
  rcases o with ⟨op, tile, vec⟩
  cases tile with
  | none =>
    cases vec <;>
      simp [buildStrategy, tileCodegen, vectorizeCodegen, CodegenStrategy.vectorizeIf,
        CodegenStrategy.setVectorTransformsOptions, CodegenStrategy.setVectorTransferToSCFOptions]
  | some t =>
    rcases t with ⟨ts, iv, po, pft, lt⟩
    cases vec <;> cases ts <;> cases po <;>
      simp [buildStrategy, tileCodegen, vectorizeCodegen, CodegenStrategy.vectorizeIf,
        CodegenStrategy.tileIf, CodegenStrategy.promoteIf, copyVector_eq,
        CodegenStrategy.setVectorTransformsOptions, CodegenStrategy.setVectorTransferToSCFOptions]

/-- Claim C2 as stated fails: an entry whose tile options have no tile sizes but
name operand 0 for promotion, and which has no vectorize options, still gets a
promotion step, so its strategy differs from the one of an entry without any
options. -/
theorem empty_tile_sizes_still_promotes :
    (buildStrategy LinalgOpType.MatmulOp 4096
        { op := LinalgOperator.matmul,
          tile_options := some
            { tile_sizes := [], interchange_vector := [], promote_operands := [0],
              promote_full_tile := false, loop_type := NodLinalgTilingLoopType.loops },
          vectorize_options := none }).transformationSequence =
      [Transformation.Promote LinalgOpType.MatmulOp
        { operandsToPromote := [0], useFullTileBuffersDefault := false, alignment := 4096 }] ∧
    buildStrategy LinalgOpType.MatmulOp 4096
        { op := LinalgOperator.matmul,
          tile_options := some
            { tile_sizes := [], interchange_vector := [], promote_operands := [0],
              promote_full_tile := false, loop_type := NodLinalgTilingLoopType.loops },
          vectorize_options := none } ≠
      buildStrategy LinalgOpType.MatmulOp 4096 (bareEntry LinalgOperator.matmul) := by
  decide

/-- Claim C2, amended: for an entry whose tile options are present with no tile
sizes and whose vectorize options are absent, the strategy has no tiling step
and no vectorization step; it has a promotion step exactly when the operands to
promote are non-empty, and then that step is its only step; and it equals the
strategy of an entry without any options exactly when the operands to promote
are empty. -/
theorem empty_tile_sizes_strategy (T : LinalgOpType) (pagesize : Nat) (o : OptionsT)
    (t : TileOptionsT) (htile : o.tile_options = some t) (hsizes : t.tile_sizes = [])
    (hvec : o.vectorize_options = none) :
    ¬ (buildStrategy T pagesize o).hasStep StepKind.tiling ∧
    ¬ (buildStrategy T pagesize o).hasStep StepKind.vectorization ∧
    ((buildStrategy T pagesize o).hasStep StepKind.promotion ↔ t.promote_operands ≠ []) ∧
    (t.promote_operands ≠ [] →
      (buildStrategy T pagesize o).transformationSequence =
        [Transformation.Promote T
          { operandsToPromote := t.promote_operands,
            useFullTileBuffersDefault := t.promote_full_tile, alignment := pagesize }]) ∧
    (buildStrategy T pagesize o = buildStrategy T pagesize (bareEntry o.op) ↔
      t.promote_operands = []) := by
  have hseq := buildStrategy_sequence T pagesize o
  have hbare : (buildStrategy T pagesize (bareEntry o.op)).transformationSequence = [] := by
    rw [buildStrategy_sequence]; rfl
  have hf := buildStrategy_vector_fields T pagesize o
  have hfb : (buildStrategy T pagesize (bareEntry o.op)).vectorTransformsOptions = {} ∧
      (buildStrategy T pagesize (bareEntry o.op)).vectorToSCFOptions = {} :=
    buildStrategy_vector_fields T pagesize (bareEntry o.op)
  simp only [htile, hvec, hsizes, if_true, List.nil_append, List.append_nil] at hseq hf
  by_cases hp : t.promote_operands = []
  · simp only [hp, if_true] at hseq
    refine ⟨?_, ?_, ?_, ?_, ?_⟩
    · simp [CodegenStrategy.hasStep, hseq]
    · simp [CodegenStrategy.hasStep, hseq]
    · simp [CodegenStrategy.hasStep, hseq, hp]
    · intro h; exact absurd hp h
    · simp only [hp, iff_true]
      rw [strategy_eq_iff]
      exact ⟨hseq.trans hbare.symm, hf.1.trans hfb.1.symm, hf.2.trans hfb.2.symm⟩
  · simp only [hp, if_false] at hseq
    refine ⟨?_, ?_, ?_, ?_, ?_⟩
    · simp [CodegenStrategy.hasStep, hseq, Transformation.kind]
    · simp [CodegenStrategy.hasStep, hseq, Transformation.kind]
    · simp [CodegenStrategy.hasStep, hseq, hp, Transformation.kind]
    · intro _; exact hseq
    · simp only [hp, iff_false]
      intro h
      rw [h, hbare] at hseq
      simp at hseq

/-- Instance of the amended claim C2: a fill entry with empty tile sizes
and nothing to promote. -/
theorem empty_tile_sizes_strategy_witness :
    ¬ (buildStrategy LinalgOpType.FillOp 4096
        { op := LinalgOperator.fill,
          tile_options := some
            { tile_sizes := [], interchange_vector := [1, 0], promote_operands := [],
              promote_full_tile := true, loop_type := NodLinalgTilingLoopType.affine_loops },
          vectorize_options := none }).hasStep StepKind.tiling ∧
    (buildStrategy LinalgOpType.FillOp 4096
        { op := LinalgOperator.fill,
          tile_options := some
            { tile_sizes := [], interchange_vector := [1, 0], promote_operands := [],
              promote_full_tile := true, loop_type := NodLinalgTilingLoopType.affine_loops },
          vectorize_options := none } =
      buildStrategy LinalgOpType.FillOp 4096 (bareEntry LinalgOperator.fill) ↔
      ([] : List Int) = []) :=
  have h := empty_tile_sizes_strategy LinalgOpType.FillOp 4096
    { op := LinalgOperator.fill,
      tile_options := some
        { tile_sizes := [], interchange_vector := [1, 0], promote_operands := [],
          promote_full_tile := true, loop_type := NodLinalgTilingLoopType.affine_loops },
      vectorize_options := none }
    { tile_sizes := [], interchange_vector := [1, 0], promote_operands := [],
      promote_full_tile := true, loop_type := NodLinalgTilingLoopType.affine_loops }
    rfl rfl rfl
  ⟨h.1, h.2.2.2.2⟩

/-- Claim C3: the strategy has a tiling step exactly when the tile options are
present with non-empty tile sizes; it is then the only tiling step, it carries
the entry's tile sizes and interchange vector unchanged, and its loop type is
the image of the entry's loop type under loops to Loops, affine_loops to
AffineLoops, parallel_loops to ParallelLoops. -/
theorem tiling_step_iff (T : LinalgOpType) (pagesize : Nat) (o : OptionsT) :
    ((buildStrategy T pagesize o).hasStep StepKind.tiling ↔
      ∃ t, o.tile_options = some t ∧ t.tile_sizes ≠ []) ∧
    ∀ t, o.tile_options = some t → t.tile_sizes ≠ [] →
      ∃ lt : LinalgTilingLoopType,
        (buildStrategy T pagesize o).transformationSequence.filter
            (fun st => decide (st.kind = StepKind.tiling)) =
          [Transformation.Tile T
            { tileSizes := t.tile_sizes, interchangeVector := t.interchange_vector,
              loopType := lt }] ∧
        (t.loop_type = NodLinalgTilingLoopType.loops → lt = LinalgTilingLoopType.Loops) ∧
        (t.loop_type = NodLinalgTilingLoopType.affine_loops →
          lt = LinalgTilingLoopType.AffineLoops) ∧
        (t.loop_type = NodLinalgTilingLoopType.parallel_loops →
          lt = LinalgTilingLoopType.ParallelLoops) := by
  have hseq := buildStrategy_sequence T pagesize o
  rcases o with ⟨op, tile, vec⟩
  constructor
  · cases tile with
    | none => cases vec <;> simp [CodegenStrategy.hasStep, hseq, Transformation.kind]
    | some t =>
      by_cases h1 : t.tile_sizes = [] <;> by_cases h2 : t.promote_operands = [] <;>
        cases vec <;> simp [CodegenStrategy.hasStep, hseq, Transformation.kind, h1, h2]
  · intro t ht hne
    simp only at ht
    subst ht
    refine ⟨loopTypeOf t.loop_type, ?_, ?_, ?_, ?_⟩
    · by_cases h2 : t.promote_operands = [] <;>
        cases vec <;> simp [hseq, Transformation.kind, hne, h2]
    · intro h; rw [h]; rfl
    · intro h; rw [h]; rfl
    · intro h; rw [h]; rfl

/-- Instance of claim C3: a matmul entry tiled by 4, 4, 4 with
parallel loops gets exactly one tiling step with those parameters. -/
theorem tiling_step_iff_witness :
    ∃ lt : LinalgTilingLoopType,
      (buildStrategy LinalgOpType.MatmulOp 4096
          { op := LinalgOperator.matmul,
            tile_options := some
              { tile_sizes := [4, 4, 4], interchange_vector := [0, 2, 1],
                promote_operands := [0, 1], promote_full_tile := true,
                loop_type := NodLinalgTilingLoopType.parallel_loops },
            vectorize_options := none }).transformationSequence.filter
          (fun st => decide (st.kind = StepKind.tiling)) =
        [Transformation.Tile LinalgOpType.MatmulOp
          { tileSizes := [4, 4, 4], interchangeVector := [0, 2, 1], loopType := lt }] ∧
      lt = LinalgTilingLoopType.ParallelLoops :=
  match (tiling_step_iff LinalgOpType.MatmulOp 4096
      { op := LinalgOperator.matmul,
        tile_options := some
          { tile_sizes := [4, 4, 4], interchange_vector := [0, 2, 1],
            promote_operands := [0, 1], promote_full_tile := true,
            loop_type := NodLinalgTilingLoopType.parallel_loops },
        vectorize_options := none }).2
      { tile_sizes := [4, 4, 4], interchange_vector := [0, 2, 1],
        promote_operands := [0, 1], promote_full_tile := true,
        loop_type := NodLinalgTilingLoopType.parallel_loops }
      rfl (by decide) with
  | ⟨lt, h1, _, _, h4⟩ => ⟨lt, h1, h4 rfl⟩

/-- Claim C4: the strategy has a vectorization step exactly when the vectorize
options are present, whatever their values and whatever the tile options; it is
then the only vectorization step, the contraction lowering is the image of
vectorize_to under dot to Dot, matmul to Matmul, outer_product to OuterProduct,
the transfer split is the image of vector_transfer_split under none to None,
linalg_copy to LinalgCopy, vector_transfer to VectorTransfer, and the unroll
flag is unroll_vector_transfers. -/
theorem vectorization_step_iff (T : LinalgOpType) (pagesize : Nat) (o : OptionsT) :
    ((buildStrategy T pagesize o).hasStep StepKind.vectorization ↔
      ∃ v, o.vectorize_options = some v) ∧
    ∀ v, o.vectorize_options = some v →
      (buildStrategy T pagesize o).transformationSequence.filter
          (fun st => decide (st.kind = StepKind.vectorization)) =
        [Transformation.Vectorize T] ∧
      (v.vectorize_to = NodVectorContractLowering.dot →
        (buildStrategy T pagesize o).vectorTransformsOptions.vectorContractLowering =
          VectorContractLowering.Dot) ∧
      (v.vectorize_to = NodVectorContractLowering.matmul →
        (buildStrategy T pagesize o).vectorTransformsOptions.vectorContractLowering =
          VectorContractLowering.Matmul) ∧
      (v.vectorize_to = NodVectorContractLowering.outer_product →
        (buildStrategy T pagesize o).vectorTransformsOptions.vectorContractLowering =
          VectorContractLowering.OuterProduct) ∧
      (v.vector_transfer_split = NodVectorTransferSplit.none →
        (buildStrategy T pagesize o).vectorTransformsOptions.vectorTransferSplit =
          VectorTransferSplit.None) ∧
      (v.vector_transfer_split = NodVectorTransferSplit.linalg_copy →
        (buildStrategy T pagesize o).vectorTransformsOptions.vectorTransferSplit =
          VectorTransferSplit.LinalgCopy) ∧
      (v.vector_transfer_split = NodVectorTransferSplit.vector_transfer →
        (buildStrategy T pagesize o).vectorTransformsOptions.vectorTransferSplit =
          VectorTransferSplit.VectorTransfer) ∧
      (buildStrategy T pagesize o).vectorToSCFOptions.unroll = v.unroll_vector_transfers := by
  have hseq := buildStrategy_sequence T pagesize o
  have hf := buildStrategy_vector_fields T pagesize o
  rcases o with ⟨op, tile, vec⟩
  constructor
  · cases tile with
    | none => cases vec <;> simp [CodegenStrategy.hasStep, hseq, Transformation.kind]
    | some t =>
      by_cases h1 : t.tile_sizes = [] <;> by_cases h2 : t.promote_operands = [] <;>
        cases vec <;> simp [CodegenStrategy.hasStep, hseq, Transformation.kind, h1, h2]
  · intro v hv
    simp only at hv
    subst hv
    simp only at hf
    refine ⟨?_, ?_, ?_, ?_, ?_, ?_, ?_, ?_⟩
    · cases tile with
      | none => simp [hseq, Transformation.kind]
      | some t =>
        by_cases h1 : t.tile_sizes = [] <;> by_cases h2 : t.promote_operands = [] <;>
          simp [hseq, Transformation.kind, h1, h2]
    · intro h; rw [hf.1, h]; rfl
    · intro h; rw [hf.1, h]; rfl
    · intro h; rw [hf.1, h]; rfl
    · intro h; rw [hf.1, h]; rfl
    · intro h; rw [hf.1, h]; rfl
    · intro h; rw [hf.1, h]; rfl
    · rw [hf.2]

/-- Instance of claim C4: a copy entry without tile options,
vectorized to outer products with vector-transfer splitting and unrolling. -/
theorem vectorization_step_iff_witness :
    (buildStrategy LinalgOpType.CopyOp 4096
        { op := LinalgOperator.copy, tile_options := none,
          vectorize_options := some
            { vectorize_to := NodVectorContractLowering.outer_product,
              vector_transfer_split := NodVectorTransferSplit.vector_transfer,
              unroll_vector_transfers := true } }).vectorTransformsOptions.vectorContractLowering =
      VectorContractLowering.OuterProduct ∧
    (buildStrategy LinalgOpType.CopyOp 4096
        { op := LinalgOperator.copy, tile_options := none,
          vectorize_options := some
            { vectorize_to := NodVectorContractLowering.outer_product,
              vector_transfer_split := NodVectorTransferSplit.vector_transfer,
              unroll_vector_transfers := true } }).vectorToSCFOptions.unroll = true :=
  have h := (vectorization_step_iff LinalgOpType.CopyOp 4096
      { op := LinalgOperator.copy, tile_options := none,
        vectorize_options := some
          { vectorize_to := NodVectorContractLowering.outer_product,
            vector_transfer_split := NodVectorTransferSplit.vector_transfer,
            unroll_vector_transfers := true } }).2
      { vectorize_to := NodVectorContractLowering.outer_product,
        vector_transfer_split := NodVectorTransferSplit.vector_transfer,
        unroll_vector_transfers := true } rfl
  ⟨h.2.2.2.1 rfl, h.2.2.2.2.2.2.2⟩

/-- Claim C5: the kinds of the steps registered by the strategy builder, in
registration order, form a subsequence of tiling, promotion, vectorization; so
tiling precedes promotion, promotion precedes vectorization, and no kind of
step is registered twice. -/
theorem steps_in_fixed_order (T : LinalgOpType) (pagesize : Nat) (o : OptionsT) :
    List.Sublist ((buildStrategy T pagesize o).transformationSequence.map Transformation.kind)
        [StepKind.tiling, StepKind.promotion, StepKind.vectorization] ∧
      ((buildStrategy T pagesize o).transformationSequence.map Transformation.kind).Nodup := by
  have hseq := buildStrategy_sequence T pagesize o
  rcases o with ⟨op, tile, vec⟩
  cases tile with
  | none => cases vec <;> simp [hseq, Transformation.kind]
  | some t =>
    by_cases h1 : t.tile_sizes = [] <;> by_cases h2 : t.promote_operands = [] <;>
      cases vec <;> simp [hseq, Transformation.kind, h1, h2]

/-! ## Theorems: the codegen pass -/

/-- One entry that is not of kind `unknown` contributes exactly one strategy. -/
theorem strategiesOf_cons (pagesize : Nat) (o : OptionsT) (rest : List OptionsT) (T : LinalgOpType)
    (h : dispatchType o.op = some T) :
    strategiesOf pagesize (o :: rest) = buildStrategy T pagesize o :: strategiesOf pagesize rest := by
  simp [strategiesOf, strategyOf, h]

/-- The dispatch loop on entries none of which is `unknown`, followed by any
further entries: it behaves like the loop on the further entries, started after
the strategies of the first ones were applied in order. -/
theorem dynamicCodegen_append (env : PassEnv) (pre : List OptionsT) (hpre : noUnknown pre)
    (rest : List OptionsT) (s : PassState) :
    dynamicCodegen env (pre ++ rest) s =
      dynamicCodegen env rest
        { s with
          func := applyAll env (strategiesOf env.pagesize pre) s.func,
          applied := s.applied ++ strategiesOf env.pagesize pre } := by
  induction pre generalizing s with
  | nil => simp [strategiesOf, applyAll]
  | cons o pre ih =>
    have hpre2 : noUnknown pre := fun x hx => hpre x (List.mem_cons_of_mem _ hx)
    have ho : o.op ≠ LinalgOperator.unknown := hpre o (List.mem_cons_self _ _)
    cases hop : o.op with
    | unknown => exact absurd hop ho
    | matmul =>
      rw [List.cons_append, dynamicCodegen]
      simp only [hop]
      rw [ih hpre2, strategiesOf_cons _ o pre LinalgOpType.MatmulOp (by rw [hop]; rfl)]
      simp [performCompileOptions, applyAll]
    | fill =>
      rw [List.cons_append, dynamicCodegen]
      simp only [hop]
      rw [ih hpre2, strategiesOf_cons _ o pre LinalgOpType.FillOp (by rw [hop]; rfl)]
      simp [performCompileOptions, applyAll]
    | copy =>
      rw [List.cons_append, dynamicCodegen]
      simp only [hop]
      rw [ih hpre2, strategiesOf_cons _ o pre LinalgOpType.CopyOp (by rw [hop]; rfl)]
      simp [performCompileOptions, applyAll]

theorem toInt32_neg_one : toInt32 (-1) = -1 := by decide

/-- On entries none of which is `unknown`, the i-th strategy is the strategy of
the i-th entry. -/
theorem strategiesOf_map_some (pagesize : Nat) (options : List OptionsT)
    (h : noUnknown options) :
    (strategiesOf pagesize options).map some = options.map (strategyOf pagesize) := by
  induction options with
  | nil => rfl
  | cons o rest ih =>
    have hrest : noUnknown rest := fun x hx => h x (List.mem_cons_of_mem _ hx)
    have ho : o.op ≠ LinalgOperator.unknown := h o (List.mem_cons_self _ _)
    cases hop : o.op with
    | unknown => exact absurd hop ho
    | matmul =>
      rw [strategiesOf_cons _ o rest LinalgOpType.MatmulOp (by rw [hop]; rfl)]
      simp [ih hrest, strategyOf, hop, dispatchType]
    | fill =>
      rw [strategiesOf_cons _ o rest LinalgOpType.FillOp (by rw [hop]; rfl)]
      simp [ih hrest, strategyOf, hop, dispatchType]
    | copy =>
      rw [strategiesOf_cons _ o rest LinalgOpType.CopyOp (by rw [hop]; rfl)]
      simp [ih hrest, strategyOf, hop, dispatchType]

/-- Claim C1 as stated fails: with the recipe "tiled matmul, then unknown" the
pass ends the process with status 1 only after the strategy of the matmul entry
has been applied, and the matmul of the function has been rewritten by then. -/
theorem unknown_entry_after_applied_strategy :
    (runOnFunction (sampleEnv [tiledMatmul, unknownEntry]) sampleParams sampleState).1 =
      Outcome.exited 1 ∧
    (runOnFunction (sampleEnv [tiledMatmul, unknownEntry]) sampleParams sampleState).2.applied =
      [buildStrategy LinalgOpType.MatmulOp 4096 tiledMatmul] ∧
    (runOnFunction (sampleEnv [tiledMatmul, unknownEntry]) sampleParams sampleState).2.func.body =
      [{ opType := some LinalgOpType.MatmulOp, ident := 1 },
       { opType := some LinalgOpType.CopyOp, ident := 10 }] ∧
    (runOnFunction (sampleEnv [tiledMatmul, unknownEntry]) sampleParams sampleState).2.func.body ≠
      sampleState.func.body := by
  decide

/-- Claim C1, amended: when the recipe file loads and its first entry of kind
`unknown` is preceded by the entries `pre`, the pass ends the process with
status 1 after printing its diagnostic, and by then exactly the strategies of
`pre` have been applied, one per entry and in recipe order, on the function whose
`passthrough` attribute was set; no strategy of the `unknown` entry or of a later
entry is applied. With `pre` empty no strategy has been applied at all. -/
theorem unknown_entry_exits (env : PassEnv) (params : Parameters) (s : PassState)
    (bytes : List Nat) (pre : List OptionsT) (u : OptionsT) (post : List OptionsT)
    (hfile : env.fs params.compileOptions = some bytes)
    (hlen : 0 ≤ toInt32 bytes.length)
    (hrecipe : (env.unpack (bytes.take (toInt32 bytes.length).toNat)).options = pre ++ u :: post)
    (hpre : noUnknown pre) (hu : u.op = LinalgOperator.unknown) :
    (runOnFunction env params s).1 = Outcome.exited 1 ∧
    (runOnFunction env params s).2.stdout =
      s.stdout ++ ["Must define operator in compile options"] ∧
    (runOnFunction env params s).2.applied = s.applied ++ strategiesOf env.pagesize pre ∧
    (strategiesOf env.pagesize pre).map some = pre.map (strategyOf env.pagesize) ∧
    (runOnFunction env params s).2.func =
      applyAll env (strategiesOf env.pagesize pre)
        { s.func with
          passthrough := some [["prefer-vector-width", params.vectorWidth],
                               ["target-cpu", params.targetCPU]] } ∧
    (pre = [] → (runOnFunction env params s).2.applied = s.applied ∧
      (runOnFunction env params s).2.func.body = s.func.body) := by
  have hrun : runOnFunction env params s =
      (Outcome.exited 1,
        { func := applyAll env (strategiesOf env.pagesize pre)
            { s.func with
              passthrough := some [["prefer-vector-width", params.vectorWidth],
                                   ["target-cpu", params.targetCPU]] },
          config := env.unpack (bytes.take (toInt32 bytes.length).toNat),
          stdout := s.stdout ++ ["Must define operator in compile options"],
          applied := s.applied ++ strategiesOf env.pagesize pre }) := by
    unfold runOnFunction
    simp only [hfile, not_lt.mpr hlen, if_false, Option.getD_some, hrecipe]
    rw [dynamicCodegen_append env pre hpre]
    rw [dynamicCodegen]
    simp only [hu]
  rw [hrun]
  refine ⟨rfl, rfl, rfl, strategiesOf_map_some env.pagesize pre hpre, rfl, ?_⟩
  intro h
  subst h
  simp [strategiesOf, applyAll]

/-- Instance of the amended claim C1: the recipe "tiled matmul, unknown,
vectorized matmul" read from `recipe.bin`. -/
theorem unknown_entry_exits_witness :
    (runOnFunction (sampleEnv [tiledMatmul, unknownEntry, vectorizedMatmul]) sampleParams
        sampleState).1 = Outcome.exited 1 ∧
    (runOnFunction (sampleEnv [tiledMatmul, unknownEntry, vectorizedMatmul]) sampleParams
        sampleState).2.applied = [] ++ strategiesOf 4096 [tiledMatmul] :=
  have h := unknown_entry_exits (sampleEnv [tiledMatmul, unknownEntry, vectorizedMatmul])
    sampleParams sampleState [1, 2, 3] [tiledMatmul] unknownEntry [vectorizedMatmul]
    (by decide) (by decide) (by decide) (by decide) (by decide)
  ⟨h.1, h.2.2.1⟩

/-- Claim C9: when the recipe file cannot be opened, so that the length read
is negative, the pass ends the process with status 1, its output ends with the
line "File not found!" followed by the requested path, the pass member holding
the recipe is left as it was, and no strategy is applied to the function. -/
theorem missing_recipe_exits (env : PassEnv) (params : Parameters) (s : PassState)
    (hmissing : env.fs params.compileOptions = none) :
    (runOnFunction env params s).1 = Outcome.exited 1 ∧
    (runOnFunction env params s).2.stdout =
      s.stdout ++ ["File not found!", params.compileOptions] ∧
    params.compileOptions ∈ (runOnFunction env params s).2.stdout ∧
    (runOnFunction env params s).2.config = s.config ∧
    (runOnFunction env params s).2.applied = s.applied ∧
    (runOnFunction env params s).2.func.body = s.func.body := by
  have hrun : runOnFunction env params s =
      (Outcome.exited 1,
        { func := { s.func with
              passthrough := some [["prefer-vector-width", params.vectorWidth],
                                   ["target-cpu", params.targetCPU]] },
          config := s.config,
          stdout := s.stdout ++ ["File not found!", params.compileOptions],
          applied := s.applied }) := by
    unfold runOnFunction
    simp [hmissing, toInt32_neg_one]
  rw [hrun]
  simp

/-- Instance of claim C9: the recipe path `no/such/file.bin`. -/
theorem missing_recipe_exits_witness :
    (runOnFunction (sampleEnv [tiledMatmul]) missingParams sampleState).1 = Outcome.exited 1 ∧
    "no/such/file.bin" ∈
      (runOnFunction (sampleEnv [tiledMatmul]) missingParams sampleState).2.stdout :=
  have h := missing_recipe_exits (sampleEnv [tiledMatmul]) missingParams sampleState (by decide)
  ⟨h.1, h.2.2.1⟩

/-- Claim C10: on a recipe without `unknown` entry the dispatch loop returns
after applying exactly one strategy per entry, in recipe order and without
merging entries of the same kind: the strategies applied are as many as the
entries, the i-th one is the strategy of the i-th entry, each is applied to the
result of the previous one, and on the empty recipe nothing is applied. -/
theorem one_strategy_per_entry (env : PassEnv) (options : List OptionsT) (s : PassState)
    (hknown : noUnknown options) :
    (dynamicCodegen env options s).1 = Outcome.returned ∧
    (dynamicCodegen env options s).2.applied = s.applied ++ strategiesOf env.pagesize options ∧
    (strategiesOf env.pagesize options).length = options.length ∧
    (strategiesOf env.pagesize options).map some = options.map (strategyOf env.pagesize) ∧
    (dynamicCodegen env options s).2.func =
      (strategiesOf env.pagesize options).foldl (fun f st => env.transform st f) s.func ∧
    dynamicCodegen env [] s = (Outcome.returned, s) := by
  have hrun := dynamicCodegen_append env options hknown [] s
  rw [List.append_nil] at hrun
  rw [hrun]
  have hmap := strategiesOf_map_some env.pagesize options hknown
  refine ⟨rfl, rfl, ?_, hmap, rfl, rfl⟩
  have := congrArg List.length hmap
  simpa using this

/-- Instance of claim C10: two matmul entries are both applied,
the tiling one first, then the vectorizing one. -/
theorem one_strategy_per_entry_witness :
    (dynamicCodegen (sampleEnv []) [tiledMatmul, vectorizedMatmul] sampleState).1 =
      Outcome.returned ∧
    (dynamicCodegen (sampleEnv []) [tiledMatmul, vectorizedMatmul] sampleState).2.applied =
      [] ++ strategiesOf 4096 [tiledMatmul, vectorizedMatmul] ∧
    (strategiesOf 4096 [tiledMatmul, vectorizedMatmul]).length = 2 :=
  have h := one_strategy_per_entry (sampleEnv []) [tiledMatmul, vectorizedMatmul] sampleState
    (by decide)
  ⟨h.1, h.2.1, h.2.2.1⟩

/-! ## Theorems: selective application -/

/-- Every step of the strategy built for an operation type is restricted to
that operation type. -/
theorem buildStrategy_target (T : LinalgOpType) (pagesize : Nat) (o : OptionsT)
    (t : Transformation) (ht : t ∈ (buildStrategy T pagesize o).transformationSequence) :
    t.target = T := by
  rw [buildStrategy_sequence] at ht
  rcases o with ⟨op, tile, vec⟩
  cases tile with
  | none =>
    cases vec with
    | none => simp at ht
    | some v => simp at ht; subst ht; rfl
  | some tl =>
    simp only [List.mem_append] at ht
    rcases ht with (ht | ht) | ht
    · by_cases h1 : tl.tile_sizes = []
      · simp [h1] at ht
      · simp [h1] at ht; subst ht; rfl
    · by_cases h2 : tl.promote_operands = []
      · simp [h2] at ht
      · simp [h2] at ht; subst ht; rfl
    · cases vec with
      | none => simp at ht
      | some v => simp at ht; subst ht; rfl

/-- One step passes an operation of another type through, where it stands. -/
theorem applyStep_frame
    (rewrite : CodegenStrategy → Transformation → Operation → List Operation)
    (st : CodegenStrategy) (t : Transformation) (pre post : List Operation) (o : Operation)
    (h : o.opType ≠ some t.target) :
    applyStep rewrite st t (pre ++ o :: post) =
      applyStep rewrite st t pre ++ o :: applyStep rewrite st t post := by
  simp [applyStep, h]

/-- The steps of one strategy pass an operation through when none of them is
restricted to its type. -/
theorem steps_frame
    (rewrite : CodegenStrategy → Transformation → Operation → List Operation)
    (st : CodegenStrategy) (o : Operation) (ts : List Transformation)
    (h : ∀ t ∈ ts, o.opType ≠ some t.target) (pre post : List Operation) :
    ts.foldl (fun b t => applyStep rewrite st t b) (pre ++ o :: post) =
      ts.foldl (fun b t => applyStep rewrite st t b) pre ++
        o :: ts.foldl (fun b t => applyStep rewrite st t b) post := by
  induction ts generalizing pre post with
  | nil => rfl
  | cons t ts ih =>
    simp only [List.foldl_cons]
    rw [applyStep_frame rewrite st t pre post o (h t (List.mem_cons_self _ _))]
    exact ih (fun x hx => h x (List.mem_cons_of_mem _ hx)) _ _

/-- The body a list of strategies leaves behind under the step-filtered engine. -/
theorem applyAll_body
    (rewrite : CodegenStrategy → Transformation → Operation → List Operation) (pagesize : Nat)
    (sts : List CodegenStrategy) (f : FuncOp) :
    (applyAll (filteredEnv rewrite pagesize) sts f).body =
      sts.foldl (fun b st => st.transformationSequence.foldl
        (fun b t => applyStep rewrite st t b) b) f.body := by
  induction sts generalizing f with
  | nil => rfl
  | cons st sts ih =>
    simp only [applyAll, List.foldl_cons] at ih ⊢
    rw [ih]
    rfl

/-- A list of strategies passes an operation through when no step of any of
them is restricted to its type. -/
theorem strategies_frame
    (rewrite : CodegenStrategy → Transformation → Operation → List Operation)
    (o : Operation) (sts : List CodegenStrategy)
    (h : ∀ st ∈ sts, ∀ t ∈ st.transformationSequence, o.opType ≠ some t.target)
    (pre post : List Operation) :
    sts.foldl (fun b st => st.transformationSequence.foldl
        (fun b t => applyStep rewrite st t b) b) (pre ++ o :: post) =
      sts.foldl (fun b st => st.transformationSequence.foldl
          (fun b t => applyStep rewrite st t b) b) pre ++
        o :: sts.foldl (fun b st => st.transformationSequence.foldl
          (fun b t => applyStep rewrite st t b) b) post := by
  induction sts generalizing pre post with
  | nil => rfl
  | cons st sts ih =>
    simp only [List.foldl_cons]
    rw [steps_frame rewrite st o st.transformationSequence (h st (List.mem_cons_self _ _))]
    exact ih (fun x hx => h x (List.mem_cons_of_mem _ hx)) _ _

/-- Every step of every strategy of a recipe is restricted to the operation
type of an entry of the recipe. -/
theorem strategiesOf_target (pagesize : Nat) (options : List OptionsT)
    (st : CodegenStrategy) (hst : st ∈ strategiesOf pagesize options)
    (t : Transformation) (ht : t ∈ st.transformationSequence) :
    ∃ e ∈ options, dispatchType e.op = some t.target := by
  simp only [strategiesOf, List.mem_filterMap] at hst
  obtain ⟨e, he, hs⟩ := hst
  refine ⟨e, he, ?_⟩
  unfold strategyOf at hs
  cases hT : dispatchType e.op with
  | none => rw [hT] at hs; simp at hs
  | some T =>
    rw [hT] at hs
    have hs2 : buildStrategy T pagesize e = st := Option.some.inj hs
    subst hs2
    rw [buildStrategy_target T pagesize e t ht]

/-- Claim C6: on a recipe without `unknown` entry the dispatch loop pairs the
kinds matmul, fill, copy with the operation types MatmulOp, FillOp, CopyOp;
every step of the strategy built for an entry is restricted to the operation
type of that entry; and under the step-filtered engine every operation of the
function whose kind has no entry in the recipe is the same operation, at the
same place, after the strategies have been applied, the operations before it and
after it being rewritten as they would be without it. -/
theorem selective_application
    (rewrite : CodegenStrategy → Transformation → Operation → List Operation) (pagesize : Nat)
    (R : List OptionsT) (s : PassState) (hknown : noUnknown R) :
    (dispatchType LinalgOperator.matmul = some LinalgOpType.MatmulOp ∧
      dispatchType LinalgOperator.fill = some LinalgOpType.FillOp ∧
      dispatchType LinalgOperator.copy = some LinalgOpType.CopyOp) ∧
    (∀ e ∈ R, ∀ T, dispatchType e.op = some T →
      ∀ t ∈ (buildStrategy T pagesize e).transformationSequence, t.target = T) ∧
    (∀ st ∈ strategiesOf pagesize R, ∀ t ∈ st.transformationSequence,
      ∃ e ∈ R, dispatchType e.op = some t.target) ∧
    (dynamicCodegen (filteredEnv rewrite pagesize) R s).2.applied =
      s.applied ++ strategiesOf pagesize R ∧
    ∀ (pre : List Operation) (o : Operation) (post : List Operation),
      s.func.body = pre ++ o :: post → ¬ hasEntry R o →
      (dynamicCodegen (filteredEnv rewrite pagesize) R s).2.func.body =
        (dynamicCodegen (filteredEnv rewrite pagesize) R
            { s with func := { s.func with body := pre } }).2.func.body ++
          o :: (dynamicCodegen (filteredEnv rewrite pagesize) R
            { s with func := { s.func with body := post } }).2.func.body := by
  have hrun : ∀ s0 : PassState, dynamicCodegen (filteredEnv rewrite pagesize) R s0 =
      (Outcome.returned,
        { s0 with
          func := applyAll (filteredEnv rewrite pagesize) (strategiesOf pagesize R) s0.func,
          applied := s0.applied ++ strategiesOf pagesize R }) := by
    intro s0
    have h := dynamicCodegen_append (filteredEnv rewrite pagesize) R hknown [] s0
    rw [List.append_nil] at h
    rw [h]
    rfl
  refine ⟨⟨rfl, rfl, rfl⟩, ?_, ?_, ?_, ?_⟩
  · intro e _ T _ t ht
    exact buildStrategy_target T pagesize e t ht
  · intro st hst t ht
    exact strategiesOf_target pagesize R st hst t ht
  · rw [hrun]
  · intro pre o post hbody hno
    rw [hrun, hrun, hrun]
    simp only [applyAll_body, hbody]
    apply strategies_frame
    intro st hst t ht heq
    obtain ⟨e, he, hd⟩ := strategiesOf_target pagesize R st hst t ht
    exact hno ⟨e, he, by rw [heq]; simp, by rw [hd, heq]⟩

/-- Instance of claim C6: with a recipe holding one tiled
matmul entry, the copy that follows the matmul in the function is untouched. -/
theorem selective_application_witness :
    (dynamicCodegen (filteredEnv markRewrite 4096) [tiledMatmul] sampleState).2.func.body =
      (dynamicCodegen (filteredEnv markRewrite 4096) [tiledMatmul]
          { sampleState with
            func := { sampleState.func with
              body := [{ opType := some LinalgOpType.MatmulOp, ident := 0 }] } }).2.func.body ++
        { opType := some LinalgOpType.CopyOp, ident := 10 } ::
          (dynamicCodegen (filteredEnv markRewrite 4096) [tiledMatmul]
            { sampleState with func := { sampleState.func with body := [] } }).2.func.body :=
  (selective_application markRewrite 4096 [tiledMatmul] sampleState (by decide)).2.2.2.2
    [{ opType := some LinalgOpType.MatmulOp, ident := 0 }]
    { opType := some LinalgOpType.CopyOp, ident := 10 } [] rfl (by decide)

/-! ## Theorems: the output file name -/

/-- No directory separator is left in the file name. -/
theorem filename_no_separator (p : List Char) : '/' ∉ filename p := by
  intro h
  unfold filename at h
  rw [List.mem_reverse] at h
  have := List.mem_takeWhile_imp h
  simp at this

/-- What `dropWhile` stops at does not satisfy the test. -/
theorem dropWhile_stops {α : Type} (f : α → Bool) (l : List α) :
    l.dropWhile f = [] ∨ ∃ x rest, l.dropWhile f = x :: rest ∧ f x = false := by
  induction l with
  | nil => left; rfl
  | cons a l ih =>
    by_cases h : f a = true
    · simpa [List.dropWhile_cons, h] using ih
    · right
      exact ⟨a, l, by simp [List.dropWhile_cons, h], by simpa using h⟩

/-- A path is its directory part, empty or ending in a separator, followed by
its file name. -/
theorem filename_split (p : List Char) :
    ∃ dir, p = dir ++ filename p ∧ (dir = [] ∨ dir.getLast? = some '/') := by
  refine ⟨(p.reverse.dropWhile (fun c => c != '/')).reverse, ?_, ?_⟩
  · unfold filename
    rw [← List.reverse_append, List.takeWhile_append_dropWhile, List.reverse_reverse]
  · rcases dropWhile_stops (fun c => c != '/') p.reverse with h | ⟨x, rest, h, hx⟩
    · left; rw [h]; rfl
    · right
      rw [h]
      have hx2 : x = '/' := by simpa using hx
      simp [hx2]

/-- When `rfind` finds nothing the character does not occur. -/
theorem rfind_none (c : Char) (l : List Char) (h : rfind c l = none) : c ∉ l := by
  induction l with
  | nil => simp
  | cons x xs ih =>
    unfold rfind at h
    cases hr : rfind c xs with
    | some j => rw [hr] at h; simp at h
    | none =>
      rw [hr] at h
      by_cases hx : x = c
      · simp [hx] at h
      · simp only [List.mem_cons, not_or]
        exact ⟨fun e => hx e.symm, ih hr⟩

/-- What `rfind` returns splits the string at its last occurrence of the character. -/
theorem rfind_some (c : Char) (l : List Char) (i : Nat) (h : rfind c l = some i) :
    ∃ ext, l = l.take i ++ c :: ext ∧ c ∉ ext ∧ rfind c ext = none := by
  induction l generalizing i with
  | nil => simp [rfind] at h
  | cons x xs ih =>
    unfold rfind at h
    cases hr : rfind c xs with
    | some j =>
      rw [hr] at h
      simp only [Option.some.injEq] at h
      subst h
      obtain ⟨ext, h1, h2, h3⟩ := ih j hr
      refine ⟨ext, ?_, h2, h3⟩
      rw [List.take_succ_cons, List.cons_append, ← h1]
    | none =>
      rw [hr] at h
      by_cases hx : x = c
      · simp only [hx, if_true, Option.some.injEq] at h
        subst h
        refine ⟨xs, by simp [hx], ?_, hr⟩
        exact rfind_none c xs hr
      · simp [hx] at h

/-- The stem is the file name, or the file name without its last period and
what follows it. -/
theorem stem_spec (p : List Char) :
    stem p = filename p ∨ ∃ ext, filename p = stem p ++ '.' :: ext ∧ '.' ∉ ext := by
  unfold stem
  simp only
  split_ifs with h
  · left; rfl
  · cases hr : rfind '.' (filename p) with
    | none => left; rfl
    | some i =>
      cases i with
      | zero => left; rfl
      | succ i =>
        right
        obtain ⟨ext, h1, h2, _⟩ := rfind_some '.' (filename p) (i + 1) hr
        exact ⟨ext, h1, h2⟩

/-- When `rfind` finds the character at the front only, it does not occur later. -/
theorem rfind_zero (c : Char) (l : List Char) (h : rfind c l = some 0) : c ∉ l.tail := by
  obtain ⟨ext, h1, h2, _⟩ := rfind_some c l 0 h
  rw [h1]
  simpa using h2

/-- When `rfind` finds the character past the front, it occurs in the tail and
what precedes it is not empty. -/
theorem rfind_succ (c : Char) (l : List Char) (i : Nat) (h : rfind c l = some (i + 1)) :
    c ∈ l.tail ∧ l.take (i + 1) ≠ [] := by
  obtain ⟨ext, h1, _, _⟩ := rfind_some c l (i + 1) h
  cases l with
  | nil => simp at h1
  | cons x xs =>
    refine ⟨?_, by simp⟩
    rw [List.take_succ_cons, List.cons_append] at h1
    have hxs : xs = xs.take i ++ c :: ext := (List.cons.inj h1).2
    show c ∈ xs
    rw [hxs]
    simp

/-- The stem, case by case: the file names `.` and `..` are their own stem; so
is a file name with no period after its first character; any other file name
is its stem, which is not empty, followed by its last period and an extension
without period. -/
theorem stem_exact (p : List Char) :
    ((filename p = ['.'] ∨ filename p = ['.', '.']) → stem p = filename p) ∧
    ('.' ∉ (filename p).tail → stem p = filename p) ∧
    (¬ (filename p = ['.'] ∨ filename p = ['.', '.']) → '.' ∈ (filename p).tail →
      stem p ≠ [] ∧ ∃ ext, filename p = stem p ++ '.' :: ext ∧ '.' ∉ ext) := by
  refine ⟨?_, ?_, ?_⟩
  · intro h
    unfold stem
    simp only [h, if_true]
  · intro hno
    unfold stem
    simp only
    split_ifs with h
    · rfl
    · cases hr : rfind '.' (filename p) with
      | none => rfl
      | some i =>
        cases i with
        | zero => rfl
        | succ i => exact absurd (rfind_succ '.' _ i hr).1 hno
  · intro hspecial hdot
    unfold stem
    simp only [hspecial, if_false]
    cases hr : rfind '.' (filename p) with
    | none => exact absurd (List.mem_of_mem_tail hdot) (rfind_none '.' _ hr)
    | some i =>
      cases i with
      | zero => exact absurd hdot (rfind_zero '.' _ hr)
      | succ i =>
        obtain ⟨ext, h1, h2, _⟩ := rfind_some '.' (filename p) (i + 1) hr
        exact ⟨(rfind_succ '.' _ i hr).2, ext, h1, h2⟩

/-- The output names of a few input paths, evaluated. -/
theorem outputName_examples :
    String.mk (stem "dir/matmul.mlir".data) ++ ".ll" = "matmul.ll" ∧
    String.mk (stem "/abs/path/to/conv.v2.mlir".data) ++ ".ll" = "conv.v2.ll" ∧
    String.mk (stem "a.b/noext".data) ++ ".ll" = "noext.ll" ∧
    String.mk (stem "dir/.hidden".data) ++ ".ll" = ".hidden.ll" ∧
    String.mk (stem "dir/..".data) ++ ".ll" = "...ll" ∧
    String.mk (stem "dir/".data) ++ ".ll" = ".ll" ∧
    String.mk (stem "x/..a".data) ++ ".ll" = "..ll" ∧
    String.mk (stem "a.".data) ++ ".ll" = "a.ll" := by
  decide

/-- No directory separator is left in the stem. -/
theorem stem_no_separator (p : List Char) : '/' ∉ stem p := by
  rcases stem_spec p with h | ⟨ext, h, _⟩
  · rw [h]; exact filename_no_separator p
  · intro hmem
    apply filename_no_separator p
    rw [h]
    exact List.mem_append_left _ hmem

/-! ## Theorems: the lowering pipeline -/

/-- When every pass succeeds the pass manager reports success and has started
every stage. -/
theorem pmRun_of_succeed {M : Type} (env : CompileEnv M) (ps : List Pass) (m lowered : M)
    (h : passesSucceed env ps m = some lowered) :
    pmRun env ps m = (PassResult.success lowered, ps.map Pass.stage) := by
  induction ps generalizing m with
  | nil =>
    simp only [passesSucceed, Option.some.injEq] at h
    subst h
    rfl
  | cons p ps ih =>
    unfold passesSucceed at h
    unfold pmRun
    cases hr : env.runPass p m with
    | success m1 =>
      rw [hr] at h
      simp only at h ⊢
      rw [ih m1 h]
      rfl
    | failure => rw [hr] at h; simp at h
    | exit status => rw [hr] at h; simp at h

/-- When the passes of `ps1` succeed and the next pass does not, the pass
manager stops there: it reports what that pass reported and has started the
stages up to and including it. -/
theorem pmRun_stops {M : Type} (env : CompileEnv M) (ps1 : List Pass) (p : Pass)
    (ps2 : List Pass) (m mk : M) (h : passesSucceed env ps1 m = some mk) :
    (env.runPass p mk = PassResult.failure →
      pmRun env (ps1 ++ p :: ps2) m = (PassResult.failure, (ps1 ++ [p]).map Pass.stage)) ∧
    (∀ status, env.runPass p mk = PassResult.exit status →
      pmRun env (ps1 ++ p :: ps2) m = (PassResult.exit status, (ps1 ++ [p]).map Pass.stage)) := by
  induction ps1 generalizing m with
  | nil =>
    simp only [passesSucceed, Option.some.injEq] at h
    subst h
    constructor
    · intro hf
      simp [pmRun, hf]
    · intro status hf
      simp [pmRun, hf]
  | cons q ps1 ih =>
    unfold passesSucceed at h
    cases hr : env.runPass q m with
    | success m1 =>
      rw [hr] at h
      simp only at h
      obtain ⟨ih1, ih2⟩ := ih m1 h
      constructor
      · intro hf
        rw [List.cons_append, pmRun]
        simp only [hr]
        rw [ih1 hf]
        rfl
      · intro status hf
        rw [List.cons_append, pmRun]
        simp only [hr]
        rw [ih2 status hf]
        rfl
    | failure => rw [hr] at h; simp at h
    | exit status => rw [hr] at h; simp at h

/-- The stages the pass manager has started are the first ones of the list. -/
theorem pmRun_executed {M : Type} (env : CompileEnv M) (ps : List Pass) (m : M) :
    ∃ n, n ≤ ps.length ∧ (pmRun env ps m).2 = (ps.take n).map Pass.stage := by
  induction ps generalizing m with
  | nil => exact ⟨0, le_refl _, rfl⟩
  | cons p ps ih =>
    unfold pmRun
    cases hr : env.runPass p m with
    | success m1 =>
      obtain ⟨n, hn, he⟩ := ih m1
      refine ⟨n + 1, by simpa using hn, ?_⟩
      simp only [List.take_succ_cons, List.map_cons, he]
    | failure => exact ⟨1, by simp, by simp⟩
    | exit status => exact ⟨1, by simp, by simp⟩

/-- The stages of the pipeline do not depend on the options. -/
theorem passPipeline_stages (options : Options) :
    (passPipeline options).map Pass.stage = stageOrder := rfl

/-- What `compile` records after the pass manager has run. -/
theorem compile_parsed {M : Type} (env : CompileEnv M) (options : Options) (module : M)
    (hparse : env.parseSourceFile options.inputFile = some module) :
    (compile env options).executed = (pmRun env (passPipeline options) module).2 ∧
    (∀ status, (pmRun env (passPipeline options) module).1 = PassResult.exit status →
      (compile env options).result = CompileResult.exited status ∧
      (compile env options).written = []) ∧
    ((pmRun env (passPipeline options) module).1 = PassResult.failure →
      (compile env options).result = CompileResult.error "error compiling to llvm backend" ∧
      (compile env options).written = []) ∧
    (∀ lowered, (pmRun env (passPipeline options) module).1 = PassResult.success lowered →
      (env.translateModuleToLLVMIR lowered = none →
        (compile env options).result = CompileResult.error "error translating to llvm ir" ∧
        (compile env options).written = []) ∧
      (∀ text, env.translateModuleToLLVMIR lowered = some text →
        (compile env options).result = CompileResult.success ∧
        (compile env options).written =
          if env.openOutput (outputName options) then [(outputName options, text)] else [])) := by
  unfold compile
  simp only [hparse]
  rcases hpm : pmRun env (passPipeline options) module with ⟨r, ex⟩
  cases r with
  | exit status =>
    refine ⟨rfl, ?_, ?_, ?_⟩
    · intro st hst
      simp only [PassResult.exit.injEq] at hst
      subst hst
      exact ⟨rfl, rfl⟩
    · intro h; simp at h
    · intro l h; simp at h
  | failure =>
    refine ⟨rfl, ?_, ?_, ?_⟩
    · intro st h; simp at h
    · intro _; exact ⟨rfl, rfl⟩
    · intro l h; simp at h
  | success lowered =>
    simp only
    cases ht : env.translateModuleToLLVMIR lowered with
    | none =>
      refine ⟨rfl, ?_, ?_, ?_⟩
      · intro st h; simp at h
      · intro h; simp at h
      · intro l h
        simp only [PassResult.success.injEq] at h
        subst h
        refine ⟨fun _ => ⟨rfl, rfl⟩, ?_⟩
        intro text htx
        rw [ht] at htx
        simp at htx
    | some moduleStr =>
      refine ⟨rfl, ?_, ?_, ?_⟩
      · intro st h; simp at h
      · intro h; simp at h
      · intro l h
        simp only [PassResult.success.injEq] at h
        subst h
        refine ⟨?_, ?_⟩
        · intro hn
          rw [ht] at hn
          simp at hn
        · intro text htx
          rw [ht] at htx
          simp only [Option.some.injEq] at htx
          subst htx
          exact ⟨rfl, rfl⟩

/-- Whenever `compile` does not succeed it has written no file; whenever it
succeeds it has written the printed module under the name `outputName` when the
output stream opened, and nothing when it did not. -/
theorem compile_written {M : Type} (env : CompileEnv M) (options : Options) :
    ((compile env options).result ≠ CompileResult.success → (compile env options).written = []) ∧
    ((compile env options).result = CompileResult.success →
      ∃ text, (compile env options).written =
        if env.openOutput (outputName options) then [(outputName options, text)] else []) := by
  unfold compile
  cases hparse : env.parseSourceFile options.inputFile with
  | none => simp
  | some module =>
    simp only
    rcases hpm : pmRun env (passPipeline options) module with ⟨r, ex⟩
    cases r with
    | exit status => simp
    | failure => simp
    | success lowered =>
      simp only
      cases ht : env.translateModuleToLLVMIR lowered with
      | none => simp
      | some moduleStr => exact ⟨fun h => absurd rfl h, fun _ => ⟨moduleStr, rfl⟩⟩

/-- When the output stream does not open, `compile` still succeeds and no file
is written. -/
theorem compile_success_without_file :
    (compile readOnlyEnv sampleOptions).result = CompileResult.success ∧
    (compile readOnlyEnv sampleOptions).written = [] := by
  decide

/-- A list splits around its k-th element. -/
theorem split_at_index {α : Type} (l : List α) (k : Nat) (p : α) (h : l[k]? = some p) :
    l = l.take k ++ p :: l.drop (k + 1) ∧ l.take (k + 1) = l.take k ++ [p] := by
  induction l generalizing k with
  | nil => simp at h
  | cons a l ih =>
    cases k with
    | zero =>
      simp only [List.getElem?_cons_zero, Option.some.injEq] at h
      subst h
      simp
    | succ k =>
      simp only [List.getElem?_cons_succ] at h
      obtain ⟨h1, h2⟩ := ih k h
      constructor
      · simp only [List.take_succ_cons, List.drop_succ_cons, List.cons_append]
        rw [← h1]
      · rw [List.take_succ_cons, h2]
        simp

/-- Claim C7: whatever the input and the options, the pipeline consists of the
same ten stages in the same order; the stages started by `compile` are always
the first ones of that list; when the stages before the k-th one succeed and the
k-th one fails, exactly the first k+1 stages have been started, `compile`
returns the error "error compiling to llvm backend", the exit status is 1 and
no file is written (and when that stage ends the process instead, the same
stages have been started and no file is written); when all ten succeed and the
translation fails, all ten have been started, `compile` returns the error
"error translating to llvm ir" with exit status 1 and no file is written; and
in general every error result gives exit status 1 and every result other than
success leaves no file written. -/
theorem fail_stop_pipeline {M : Type} (env : CompileEnv M) (options : Options) :
    (passPipeline options).map Pass.stage =
      [Stage.Canonicalizer, Stage.LinalgCodegen, Stage.LinalgComprehensiveModuleBufferize,
       Stage.ConvertVectorToSCF, Stage.LowerAffine, Stage.ConvertLinalgToLoops,
       Stage.LowerToCFG, Stage.ConvertVectorToLLVM, Stage.MemRefToLLVM, Stage.LowerToLLVM] ∧
    (∃ n, n ≤ 10 ∧ (compile env options).executed = stageOrder.take n) ∧
    (∀ (module : M) (k : Nat) (p : Pass) (mk : M),
      env.parseSourceFile options.inputFile = some module →
      (passPipeline options)[k]? = some p →
      passesSucceed env ((passPipeline options).take k) module = some mk →
      (env.runPass p mk = PassResult.failure →
        (compile env options).executed = stageOrder.take (k + 1) ∧
        (compile env options).result =
          CompileResult.error "error compiling to llvm backend" ∧
        exitCode (compile env options).result = 1 ∧
        (compile env options).written = []) ∧
      (∀ status, env.runPass p mk = PassResult.exit status →
        (compile env options).executed = stageOrder.take (k + 1) ∧
        (compile env options).result = CompileResult.exited status ∧
        (compile env options).written = [])) ∧
    (∀ (module lowered : M),
      env.parseSourceFile options.inputFile = some module →
      passesSucceed env (passPipeline options) module = some lowered →
      (compile env options).executed = stageOrder ∧
      (env.translateModuleToLLVMIR lowered = none →
        (compile env options).result = CompileResult.error "error translating to llvm ir" ∧
        exitCode (compile env options).result = 1 ∧
        (compile env options).written = [])) ∧
    (∀ message, (compile env options).result = CompileResult.error message →
      exitCode (compile env options).result = 1 ∧ (compile env options).written = []) ∧
    ((compile env options).result ≠ CompileResult.success →
      (compile env options).written = []) := by
  refine ⟨rfl, ?_, ?_, ?_, ?_, (compile_written env options).1⟩
  · cases hparse : env.parseSourceFile options.inputFile with
    | none =>
      refine ⟨0, by decide, ?_⟩
      unfold compile
      simp [hparse]
    | some module =>
      obtain ⟨n, hn, he⟩ := pmRun_executed env (passPipeline options) module
      refine ⟨n, hn, ?_⟩
      rw [(compile_parsed env options module hparse).1, he, List.map_take, passPipeline_stages]
  · intro module k p mk hparse hk hsucc
    obtain ⟨hexec, hexit, hfail, _⟩ := compile_parsed env options module hparse
    obtain ⟨hsplit, htake⟩ := split_at_index (passPipeline options) k p hk
    obtain ⟨hstopf, hstope⟩ := pmRun_stops env ((passPipeline options).take k) p
      ((passPipeline options).drop (k + 1)) module mk hsucc
    rw [← hsplit, ← htake, List.map_take, passPipeline_stages] at hstopf hstope
    constructor
    · intro hf
      have hpm := hstopf hf
      have hres := hfail (by rw [hpm])
      refine ⟨by rw [hexec, hpm], hres.1, by rw [hres.1]; rfl, hres.2⟩
    · intro status hf
      have hpm := hstope status hf
      have hres := hexit status (by rw [hpm])
      exact ⟨by rw [hexec, hpm], hres.1, hres.2⟩
  · intro module lowered hparse hsucc
    obtain ⟨hexec, _, _, hok⟩ := compile_parsed env options module hparse
    have hpm := pmRun_of_succeed env (passPipeline options) module lowered hsucc
    refine ⟨by rw [hexec, hpm]; rfl, ?_⟩
    intro hnone
    have hres := (hok lowered (by rw [hpm])).1 hnone
    exact ⟨hres.1, by rw [hres.1]; rfl, hres.2⟩
  · intro message hmsg
    refine ⟨by rw [hmsg]; rfl, (compile_written env options).1 ?_⟩
    rw [hmsg]
    simp

/-- Instance of claim C7: when the fourth stage fails, the first
four stages have been started, the result is the pipeline error and no file is
written. -/
theorem fail_stop_pipeline_witness :
    (compile (failingEnv Stage.ConvertVectorToSCF) sampleOptions).executed =
      stageOrder.take (3 + 1) ∧
    (compile (failingEnv Stage.ConvertVectorToSCF) sampleOptions).result =
      CompileResult.error "error compiling to llvm backend" ∧
    exitCode (compile (failingEnv Stage.ConvertVectorToSCF) sampleOptions).result = 1 ∧
    (compile (failingEnv Stage.ConvertVectorToSCF) sampleOptions).written = [] :=
  ((fail_stop_pipeline (failingEnv Stage.ConvertVectorToSCF) sampleOptions).2.2.1
    0 3 (Pass.plain Stage.ConvertVectorToSCF) 3 rfl rfl rfl).1 rfl

/-- Claim C8: when `compile` succeeds, every file it has written bears the
name made of the stem of the input path followed by `.ll`, and when the output
stream opened that is exactly one file (when it did not, none); the name holds
no directory separator, so it is relative to the working directory; the stem is
taken from the last component of the input path, which is what follows its last
separator; that component is its own stem when it is `.` or `..` or has no
period after its first character, and otherwise it is the stem, not empty,
followed by its last period and an extension without period; and the input
`dir/matmul.mlir` gives `matmul.ll`. -/
theorem output_name_is_stem {M : Type} (env : CompileEnv M) (options : Options)
    (hsuccess : (compile env options).result = CompileResult.success) :
    (∀ entry ∈ (compile env options).written, entry.1 = outputName options) ∧
    (env.openOutput (outputName options) = true →
      ∃ text, (compile env options).written = [(outputName options, text)]) ∧
    (env.openOutput (outputName options) = false → (compile env options).written = []) ∧
    (outputName options).data = stem options.inputFile.data ++ ['.', 'l', 'l'] ∧
    '/' ∉ (outputName options).data ∧
    (∃ dir, options.inputFile.data = dir ++ filename options.inputFile.data ∧
      (dir = [] ∨ dir.getLast? = some '/') ∧ '/' ∉ filename options.inputFile.data) ∧
    ((filename options.inputFile.data = ['.'] ∨ filename options.inputFile.data = ['.', '.']) →
      stem options.inputFile.data = filename options.inputFile.data) ∧
    ('.' ∉ (filename options.inputFile.data).tail →
      stem options.inputFile.data = filename options.inputFile.data) ∧
    (¬ (filename options.inputFile.data = ['.'] ∨ filename options.inputFile.data = ['.', '.']) →
      '.' ∈ (filename options.inputFile.data).tail →
      stem options.inputFile.data ≠ [] ∧
      ∃ ext, filename options.inputFile.data = stem options.inputFile.data ++ '.' :: ext ∧
        '.' ∉ ext) ∧
    (∀ cpu width recipe : String,
      outputName { inputFile := "dir/matmul.mlir", targetCPU := cpu, vectorWidth := width,
                   compileOptions := recipe } = "matmul.ll") := by
  have hdata : (outputName options).data = stem options.inputFile.data ++ ['.', 'l', 'l'] := by
    simp [outputName]
  obtain ⟨text, hw⟩ := (compile_written env options).2 hsuccess
  obtain ⟨hs1, hs2, hs3⟩ := stem_exact options.inputFile.data
  refine ⟨?_, ?_, ?_, hdata, ?_, ?_, hs1, hs2, hs3, ?_⟩
  · intro entry hentry
    rw [hw] at hentry
    by_cases ho : env.openOutput (outputName options) = true
    · simp only [ho, if_true, List.mem_singleton] at hentry
      rw [hentry]
    · simp [ho] at hentry
  · intro ho
    exact ⟨text, by rw [hw]; simp [ho]⟩
  · intro ho
    rw [hw]
    simp [ho]
  · rw [hdata]
    intro h
    rcases List.mem_append.mp h with h | h
    · exact stem_no_separator _ h
    · simp at h
  · obtain ⟨dir, h1, h2⟩ := filename_split options.inputFile.data
    exact ⟨dir, h1, h2, filename_no_separator _⟩
  · intro cpu width recipe
    show String.mk (stem "dir/matmul.mlir".data) ++ ".ll" = "matmul.ll"
    decide

/-- Instance of claim C8: a successful run on `dir/matmul.mlir` writes
`matmul.ll`, whose stem `matmul` is the last component without `.mlir`. -/
theorem output_name_is_stem_witness :
    (compile succeedingEnv sampleOptions).result = CompileResult.success ∧
    (∃ text, (compile succeedingEnv sampleOptions).written = [(outputName sampleOptions, text)]) ∧
    '/' ∉ (outputName sampleOptions).data ∧
    (stem sampleOptions.inputFile.data ≠ [] ∧
      ∃ ext, filename sampleOptions.inputFile.data =
        stem sampleOptions.inputFile.data ++ '.' :: ext ∧ '.' ∉ ext) :=
  have h := output_name_is_stem succeedingEnv sampleOptions (by decide)
  ⟨by decide, h.2.1 rfl, h.2.2.2.2.1, h.2.2.2.2.2.2.2.2.1 (by decide) (by decide)⟩

end MatmulCompile
